import Mathlib

/-!
Verification of the jsondb document store (Go).

Shallow embedding of the core of the repository:
* `storage`: documents, the in-memory backend and the file backend
  (`storage/*.go`);
* `index`: the B-tree secondary index (`index/btree.go`);
* `query`: the query parser and executor (`query/parser.go`,
  `query/executor.go`);
* `api`: the collection operations that couple storage with index
  maintenance (`api/db.go`).

Modelling conventions:
* Go maps are modelled as association lists with unique keys; the list
  order stands for the (arbitrary but fixed) enumeration order of the map.
* Go `int` is modelled as `Int` (no arithmetic in the code overflows);
  `strconv.Atoi` keeps its 64-bit range check.
* Go `float64` is modelled as `ℚ`.  Every float literal appearing in the
  verified statements (for instance `3.5`) is exactly representable as a
  double, and on such values the Go `<` comparison and the conversions
  `float64(i)` / `int(f)` agree with exact rational arithmetic:
  `int(f)` truncates toward zero, which is `Int.tdiv` on `num/den`.
* Functions that Go implements by in-place mutation are modelled as
  functions returning the new value; functions returning `error` return
  `Except String`.
* `query.parseCondition` recurses without a structural bound in Go, and
  for some inputs it does not terminate; the model adds an explicit fuel
  parameter (`none` = the recursion does not finish within the given
  fuel; a result that is `none` for every fuel is a non-terminating run).
-/

namespace JsonDB

/-- Dynamically-typed document field value, mirroring the Go `interface{}`
values produced by the JSON layer and the query parser: string, int,
float64 (modelled as `ℚ`), bool, array, nested object, or the nil
interface. -/
inductive Value where
  | vStr (s : String)
  | vInt (n : Int)
  | vFloat (q : ℚ)
  | vBool (b : Bool)
  | vArr (xs : List Value)
  | vMap (m : List (String × Value))
  | vNull
deriving Repr

/-- Go string `<` is byte-wise lexicographic on UTF-8; on Unicode scalars
this is the same order as code-point lexicographic comparison. -/
def strLtB : List Char → List Char → Bool
  | [], [] => false
  | [], _ :: _ => true
  | _ :: _, [] => false
  | a :: as, b :: bs =>
    if a.toNat < b.toNat then true
    else if b.toNat < a.toNat then false
    else strLtB as bs

/-- Go `float64` `<`, on the exact rational model. -/
def fblt (a b : ℚ) : Bool := Rat.blt a b

/-- Go conversion `float64(n)` for an `int` (exact for the values in the
verified statements). -/
def intToQ (n : Int) : ℚ := Rat.divInt n 1

/-- Go conversion `int(f)` for a `float64`: truncation toward zero. -/
def goFloatToInt (q : ℚ) : Int := q.num.tdiv q.den

/-- Three-way comparison on the rational model of `float64`, mirroring the
Go pattern `if v1 < v2 { return -1 } else if v1 > v2 { return 1 }; return 0`. -/
def cmpQ (a b : ℚ) : Int :=
  if fblt a b then -1 else if fblt b a then 1 else 0

/-- Three-way comparison on Go `int`. -/
def cmpZ (a b : Int) : Int :=
  if a < b then -1 else if b < a then 1 else 0

/-- Three-way comparison on Go `string`. -/
def cmpStr (a b : String) : Int :=
  if strLtB a.toList b.toList then -1
  else if strLtB b.toList a.toList then 1 else 0

/-- Three-way comparison on Go `bool` (`false < true`). -/
def cmpB (a b : Bool) : Int :=
  if !a && b then -1 else if a && !b then 1 else 0

/-! Association lists standing for Go maps. -/

/-- Lookup (`v, ok := m[k]`). -/
def mapLookup {α : Type} : List (String × α) → String → Option α
  | [], _ => none
  | (k0, v0) :: rest, k => if k0 == k then some v0 else mapLookup rest k

/-- Assignment `m[k] = v`: replace the binding in place, or append a new
one (the model of the map's enumeration order). -/
def mapUpsert {α : Type} : List (String × α) → String → α → List (String × α)
  | [], k, v => [(k, v)]
  | (k0, v0) :: rest, k, v =>
    if k0 == k then (k0, v) :: rest else (k0, v0) :: mapUpsert rest k v

/-- Built-in `delete(m, k)`: a no-op when the key is absent. -/
def mapErase {α : Type} : List (String × α) → String → List (String × α)
  | [], _ => []
  | (k0, v0) :: rest, k =>
    if k0 == k then mapErase rest k else (k0, v0) :: mapErase rest k

/-- True when the keys of the association list are pairwise distinct
(the invariant of any list that stands for a Go map). -/
def mapNodupKeys {α : Type} : List (String × α) → Bool
  | [] => true
  | (k0, _) :: rest => rest.all (fun p => !(p.1 == k0)) && mapNodupKeys rest

end JsonDB

namespace JsonDB.storage

open JsonDB

/-- `storage.Document`: identifier plus content mapping. -/
structure Document where
  ID : String
  Content : List (String × Value)
deriving Repr

/-- `storage.MemoryStorage`: the in-memory map from identifier to
document. -/
structure MemoryStorage where
  Docs : List (String × Document)
deriving Repr

/-- `MemoryStorage.Save`: `ms.Docs[doc.ID] = doc; return nil` — an upsert
that never fails. -/
def MemoryStorage.Save (ms : MemoryStorage) (doc : Document) : MemoryStorage :=
  ⟨mapUpsert ms.Docs doc.ID doc⟩

/-- `MemoryStorage.Get`: the document, or an error when absent. -/
def MemoryStorage.Get (ms : MemoryStorage) (id : String) : Except String Document :=
  match mapLookup ms.Docs id with
  | none => .error "document not found"
  | some d => .ok d

/-- `MemoryStorage.Delete`: `delete(ms.Docs, id); return nil` — Go's map
delete is a silent no-op on an absent key, so this never fails. -/
def MemoryStorage.Delete (ms : MemoryStorage) (id : String) :
    Except String MemoryStorage :=
  .ok ⟨mapErase ms.Docs id⟩

/-- `MemoryStorage.List`: every stored document, in the map's enumeration
order. -/
def MemoryStorage.List (ms : MemoryStorage) : List Document :=
  ms.Docs.map (·.2)

/-- `storage.FileStorage`: the file-per-document backend.  `Files` models
the contents of the backing directory (identifier to stored document);
`Cache` models the optional in-memory cache. -/
structure FileStorage where
  Dir : String
  UseCache : Bool
  Cache : List (String × Document)
  Files : List (String × Document)
deriving Repr

/-- `FileStorage.Delete`: `os.Remove` fails when the file does not exist,
so deleting an absent identifier is an error; on success the cache entry
is also dropped. -/
def FileStorage.Delete (fs : FileStorage) (id : String) :
    Except String FileStorage :=
  match mapLookup fs.Files id with
  | none => .error "remove: no such file"
  | some _ =>
    .ok { fs with
            Files := mapErase fs.Files id
            Cache := if fs.UseCache then mapErase fs.Cache id else fs.Cache }

end JsonDB.storage

namespace JsonDB.index

open JsonDB JsonDB.storage

/-- `index.compare` (`index/btree.go`): typed three-way comparison used to
keep B-tree keys sorted.  Strings lexicographic; int/float compare with
the int converted to `float64` in both mixed cases; bools with
`false < true`; every other pairing falls through to `return 0`. -/
def compare (a b : Value) : Int :=
  match a with
  | .vStr v1 =>
    match b with
    | .vStr v2 => cmpStr v1 v2
    | _ => 0
  | .vFloat v1 =>
    match b with
    | .vFloat v2 => cmpQ v1 v2
    | .vInt v2 => cmpQ v1 (intToQ v2)
    | _ => 0
  | .vInt v1 =>
    match b with
    | .vInt v2 => cmpZ v1 v2
    | .vFloat v2 => cmpQ (intToQ v1) v2
    | _ => 0
  | .vBool v1 =>
    match b with
    | .vBool v2 => cmpB v1 v2
    | _ => 0
  | _ => 0

/-- `index.BTreeNode`: keys, the identifier list attached to each key, the
children, and the leaf flag. -/
inductive BTreeNode where
  | node (keys : List Value) (values : List (List String))
         (children : List BTreeNode) (isLeaf : Bool)

/-- Keys of a node. -/
def BTreeNode.keys : BTreeNode → List Value
  | .node ks _ _ _ => ks

/-- Identifier lists of a node. -/
def BTreeNode.values : BTreeNode → List (List String)
  | .node _ vs _ _ => vs

/-- Children of a node. -/
def BTreeNode.children : BTreeNode → List BTreeNode
  | .node _ _ cs _ => cs

/-- Leaf flag of a node. -/
def BTreeNode.isLeaf : BTreeNode → Bool
  | .node _ _ _ l => l

/-- The scan `pos := 0; for pos < len(keys) && compare(keys[pos], key) < 0
{ pos++ }` shared by insert, remove and search. -/
def scanPos (keys : List Value) (key : Value) : Nat :=
  (keys.takeWhile (fun k => decide (compare k key < 0))).length

/-- Insert an element at a position of a list (the Go append-and-shift
idiom in the leaf branch of `insert`; the position never exceeds the
length). -/
def listInsertAt {α : Type} : List α → Nat → α → List α
  | l, 0, a => a :: l
  | [], _ + 1, a => [a]
  | x :: xs, i + 1, a => x :: listInsertAt xs i a

/-- `index.BTreeIndex`: root node, indexed field, order parameter, and the
reverse map from document identifier to the value it is indexed under. -/
structure BTreeIndex where
  Root : BTreeNode
  Field : String
  Order : Int
  DocIDs : List (String × Value)

/-- `NewBTreeIndex`: an empty leaf root. -/
def NewBTreeIndex (f : String) (order : Int) : BTreeIndex :=
  ⟨.node [] [] [] true, f, order, []⟩

/-- `splitIfNeeded`: the source checks `len(node.Keys) <= bt.Order` and
otherwise leaves the node untouched — the split itself is a no-op
placeholder, so both branches return the node unchanged. -/
def splitIfNeeded (order : Int) (n : BTreeNode) : BTreeNode :=
  if (n.keys.length : Int) ≤ order then n else n

mutual

/-- `BTreeIndex.insert`: upsert a `(key, docIDs)` pair.  In a leaf the pair
is written at the sorted position (followed by the placeholder split); in
an internal node an exact key match updates in place, otherwise the
insert recurses into the chosen child.  (With an empty children list Go
would index out of range; built trees never reach that state and the
model leaves the node unchanged there.) -/
def insert (order : Int) (n : BTreeNode) (key : Value) (docIDs : List String) :
    BTreeNode :=
  match n with
  | .node keys values children isLeaf =>
    let pos := scanPos keys key
    if isLeaf then
      match keys[pos]? with
      | some k0 =>
        if compare k0 key == 0 then
          .node keys (values.set pos docIDs) children isLeaf
        else
          splitIfNeeded order
            (.node (listInsertAt keys pos key) (listInsertAt values pos docIDs)
              children isLeaf)
      | none =>
        splitIfNeeded order
          (.node (listInsertAt keys pos key) (listInsertAt values pos docIDs)
            children isLeaf)
    else
      match keys[pos]? with
      | some k0 =>
        if compare k0 key == 0 then
          .node keys (values.set pos docIDs) children isLeaf
        else
          let childPos := if pos == keys.length then children.length - 1 else pos
          .node keys values (insertChild order children childPos key docIDs) isLeaf
      | none =>
        let childPos := if pos == keys.length then children.length - 1 else pos
        .node keys values (insertChild order children childPos key docIDs) isLeaf

/-- Apply `insert` to the child at the given position. -/
def insertChild (order : Int) (cs : List BTreeNode) (i : Nat) (key : Value)
    (docIDs : List String) : List BTreeNode :=
  match cs, i with
  | [], _ => []
  | c :: rest, 0 => insert order c key docIDs :: rest
  | c :: rest, i + 1 => c :: insertChild order rest i key docIDs

end

mutual

/-- `BTreeIndex.search`: the identifier list stored under a key, or empty
when the key is absent from a leaf; otherwise descend into the chosen
child. -/
def search (n : BTreeNode) (key : Value) : List String :=
  match n with
  | .node keys values children isLeaf =>
    let pos := scanPos keys key
    match keys[pos]? with
    | some k0 =>
      if compare k0 key == 0 then values.getD pos []
      else
        if isLeaf then []
        else
          let childPos := if pos ≥ children.length then children.length - 1 else pos
          searchChild children childPos key
    | none =>
      if isLeaf then []
      else
        let childPos := if pos ≥ children.length then children.length - 1 else pos
        searchChild children childPos key

/-- Descend into the child at the given position. -/
def searchChild (cs : List BTreeNode) (i : Nat) (key : Value) : List String :=
  match cs, i with
  | [], _ => []
  | c :: _, 0 => search c key
  | _ :: rest, i + 1 => searchChild rest i key

end

mutual

/-- `BTreeIndex.remove`: delete a key (with its identifier list) from the
tree; in an internal node a miss recurses into the chosen child. -/
def removeKey (n : BTreeNode) (key : Value) : BTreeNode :=
  match n with
  | .node keys values children isLeaf =>
    let pos := scanPos keys key
    if !isLeaf then
      match keys[pos]? with
      | some k0 =>
        if compare k0 key == 0 then
          .node (keys.eraseIdx pos) (values.eraseIdx pos) children isLeaf
        else
          let childPos := if pos ≥ children.length then children.length - 1 else pos
          .node keys values (removeChild children childPos key) isLeaf
      | none =>
        let childPos := if pos ≥ children.length then children.length - 1 else pos
        .node keys values (removeChild children childPos key) isLeaf
    else
      match keys[pos]? with
      | some k0 =>
        if compare k0 key == 0 then
          .node (keys.eraseIdx pos) (values.eraseIdx pos) children isLeaf
        else n
      | none => n

/-- Apply `removeKey` to the child at the given position. -/
def removeChild (cs : List BTreeNode) (i : Nat) (key : Value) : List BTreeNode :=
  match cs, i with
  | [], _ => []
  | c :: rest, 0 => removeKey c key :: rest
  | c :: rest, i + 1 => c :: removeChild rest i key

end

/-- `getNestedValue` (index copy): flat lookup of a field in the content. -/
def getNestedValue (content : List (String × Value)) (f : String) :
    Option Value :=
  mapLookup content f

/-- `BTreeIndex.Search`: fails when the queried field is not the indexed
field, otherwise looks the value up in the tree. -/
def BTreeIndex.Search (bt : BTreeIndex) (f : String) (value : Value) :
    Except String (List String) :=
  if f != bt.Field then .error "index field mismatch"
  else .ok (search bt.Root value)

/-- `BTreeIndex.Add`: a document without the indexed field is a no-op;
otherwise record the value in the reverse map, fetch the identifier list
currently stored under the value, append this identifier if it is not
yet present, and upsert the pair into the tree.  All error paths of the
Go code return nil, so the model is total. -/
def BTreeIndex.Add (bt : BTreeIndex) (doc : Document) : BTreeIndex :=
  match getNestedValue doc.Content bt.Field with
  | none => bt
  | some value =>
    let docIDs' := mapUpsert bt.DocIDs doc.ID value
    let ids :=
      match BTreeIndex.Search bt bt.Field value with
      | .ok l => l
      | .error _ => []
    let ids := if ids.contains doc.ID then ids else ids ++ [doc.ID]
    { bt with Root := insert bt.Order bt.Root value ids, DocIDs := docIDs' }

/-- `BTreeIndex.Remove`: an identifier that was never indexed is a no-op;
otherwise strip it from the identifier list of its recorded value and
either upsert the reduced list or delete the key when the list became
empty.  The reverse-map entry is cleared in both cases. -/
def BTreeIndex.Remove (bt : BTreeIndex) (id : String) : BTreeIndex :=
  match mapLookup bt.DocIDs id with
  | none => bt
  | some value =>
    let ids :=
      match BTreeIndex.Search bt bt.Field value with
      | .ok l => l
      | .error _ => []
    let newIDs := ids.filter (fun docID => docID != id)
    let docIDs' := mapErase bt.DocIDs id
    if newIDs.length > 0 then
      { bt with Root := insert bt.Order bt.Root value newIDs, DocIDs := docIDs' }
    else
      { bt with Root := removeKey bt.Root value, DocIDs := docIDs' }

end JsonDB.index

namespace JsonDB.api

open JsonDB JsonDB.storage JsonDB.index

/-- `api.Collection` over the in-memory backend: name, storage, and the
map from field name to its B-tree index. -/
structure Collection where
  Name : String
  Storage : MemoryStorage
  Indexes : List (String × BTreeIndex)

/-- `Collection.InsertDocument`: reject an empty identifier, persist via
the backend, then add the document to every index.  (`BTreeIndex.Add`
never fails in the source, so the index loop always completes.) -/
def Collection.InsertDocument (c : Collection) (doc : Document) :
    Except String Collection :=
  if doc.ID == "" then .error "document ID is required"
  else
    let st := c.Storage.Save doc
    let idxs := c.Indexes.map (fun p => (p.1, p.2.Add doc))
    .ok { c with Storage := st, Indexes := idxs }

/-- `Collection.UpdateDocument`: reject an empty identifier; if the prior
version can be fetched, remove it from every index; persist; re-add to
every index. -/
def Collection.UpdateDocument (c : Collection) (doc : Document) :
    Except String Collection :=
  if doc.ID == "" then .error "document ID is required"
  else
    let idxs0 :=
      match c.Storage.Get doc.ID with
      | .ok oldDoc =>
        c.Indexes.map (fun (p : String × BTreeIndex) => (p.1, p.2.Remove oldDoc.ID))
      | .error _ => c.Indexes
    let st := c.Storage.Save doc
    let idxs := idxs0.map (fun (p : String × BTreeIndex) => (p.1, p.2.Add doc))
    .ok { c with Storage := st, Indexes := idxs }

end JsonDB.api

namespace JsonDB.query

open JsonDB JsonDB.storage

/-- `query.Condition`: the struct with all five fields.  `Left` is an
`interface{}` the parser fills with a string (none models nil), `Right`
an `interface{}` literal (`Value.vNull` models nil), and an internal node
carries `ChildOp` with the `Children` list. -/
inductive Condition where
  | mk (Left : Option String) (Operator : String) (Right : Value)
       (ChildOp : String) (Children : List Condition)

/-- `Left` field of a condition. -/
def Condition.Left : Condition → Option String
  | .mk l _ _ _ _ => l

/-- `Operator` field of a condition. -/
def Condition.Operator : Condition → String
  | .mk _ o _ _ _ => o

/-- `Right` field of a condition. -/
def Condition.Right : Condition → Value
  | .mk _ _ r _ _ => r

/-- `ChildOp` field of a condition. -/
def Condition.ChildOp : Condition → String
  | .mk _ _ _ c _ => c

/-- `Children` field of a condition. -/
def Condition.Children : Condition → List Condition
  | .mk _ _ _ _ cs => cs

/-- `query.Query`: selected fields, source collection, optional condition
tree, limit and offset. -/
structure Query where
  Select : List String
  From : String
  Where : Option Condition
  Limit : Int
  Offset : Int

/-- `getNestedValue` (query copy): flat lookup of a field in the content. -/
def getNestedValue (content : List (String × Value)) (f : String) :
    Option Value :=
  mapLookup content f

/-- `QueryExecutor.compare`: typed three-way comparison of the executor.
Strings lexicographic; a float on the left coerces an int on the right to
`float64`; an int on the left converts a float on the right to `int`
(truncation); bools with `false < true`; every other pairing returns 0. -/
def QueryExecutor.compare (a b : Value) : Int :=
  match a with
  | .vStr v1 =>
    match b with
    | .vStr v2 => cmpStr v1 v2
    | _ => 0
  | .vFloat v1 =>
    match b with
    | .vFloat v2 => cmpQ v1 v2
    | .vInt v2 => cmpQ v1 (intToQ v2)
    | _ => 0
  | .vInt v1 =>
    match b with
    | .vInt v2 => cmpZ v1 v2
    | .vFloat v2 => cmpZ v1 (goFloatToInt v2)
    | _ => 0
  | .vBool v1 =>
    match b with
    | .vBool v2 => cmpB v1 v2
    | _ => 0
  | _ => 0

/-- `QueryExecutor.equals`: comparison result equal to zero. -/
def QueryExecutor.equals (a b : Value) : Bool :=
  QueryExecutor.compare a b == 0

/-- `QueryExecutor.compareValues`: dispatch over the six operators; an
unknown operator yields false. -/
def QueryExecutor.compareValues (left : Value) (op : String) (right : Value) :
    Bool :=
  match op with
  | "=" => QueryExecutor.equals left right
  | "!=" => !(QueryExecutor.equals left right)
  | ">" => decide (QueryExecutor.compare left right > 0)
  | ">=" => decide (QueryExecutor.compare left right ≥ 0)
  | "<" => decide (QueryExecutor.compare left right < 0)
  | "<=" => decide (QueryExecutor.compare left right ≤ 0)
  | _ => false

mutual

/-- `QueryExecutor.evalCondition`: an internal node with `ChildOp` AND
(resp. OR) evaluates all children and takes the conjunction (resp.
disjunction); any other condition is evaluated as a leaf: a nil or
non-string `Left` is false, `_id` resolves to the document identifier, a
field absent from the content is false, and otherwise the typed
comparison decides. -/
def QueryExecutor.evalCondition (doc : Document) (cond : Condition) : Bool :=
  match cond with
  | .mk left op right childOp children =>
    let results := QueryExecutor.evalChildren doc children
    if children.length > 0 && childOp == "AND" then results.all id
    else if children.length > 0 && childOp == "OR" then results.any id
    else
      match left with
      | none => false
      | some fieldName =>
        if fieldName == "_id" then
          QueryExecutor.compareValues (.vStr doc.ID) op right
        else
          match getNestedValue doc.Content fieldName with
          | none => false
          | some value => QueryExecutor.compareValues value op right

/-- Evaluate every child condition (the Go loop filling `results`). -/
def QueryExecutor.evalChildren (doc : Document) (cs : List Condition) :
    List Bool :=
  match cs with
  | [] => []
  | c :: rest =>
    QueryExecutor.evalCondition doc c :: QueryExecutor.evalChildren doc rest

end

/-- One projected result row (`map[string]interface{}`), as an association
list in insertion order. -/
def Row : Type := List (String × Value)

/-- The projection step of `QueryExecutor.Execute` for one passing
document: wildcard selection copies every content field and then `_id`;
an explicit field list copies the named fields that exist, with `_id`
synthesized from the identifier. -/
def projectDoc (select : List String) (doc : Document) : Row :=
  if select.length == 1 && select.headD "" == "*" then
    mapUpsert (doc.Content.foldl (fun acc p => mapUpsert acc p.1 p.2) []) "_id"
      (.vStr doc.ID)
  else
    select.foldl
      (fun acc f =>
        if f == "_id" then mapUpsert acc "_id" (.vStr doc.ID)
        else
          match getNestedValue doc.Content f with
          | some v => mapUpsert acc f v
          | none => acc)
      []

/-- The offset step of `QueryExecutor.Execute`:
`if query.Offset > 0 && query.Offset < len(results) { results = results[query.Offset:] }`. -/
def applyOffset (offset : Int) (results : List Row) : List Row :=
  if 0 < offset ∧ offset < (results.length : Int) then
    results.drop offset.toNat
  else results

/-- The limit step of `QueryExecutor.Execute`:
`if query.Limit >= 0 && query.Limit < len(results) { results = results[:query.Limit] }`. -/
def applyLimit (limit : Int) (results : List Row) : List Row :=
  if 0 ≤ limit ∧ limit < (results.length : Int) then
    results.take limit.toNat
  else results

/-- `query.Collection`: the executor's view of a collection (its storage
backend). -/
structure Collection where
  Storage : MemoryStorage

/-- `QueryExecutor.Execute`: find the collection, list all documents, keep
those passing the condition (absence of a condition passes everything),
project each survivor, then apply offset followed by limit. -/
def QueryExecutor.Execute (db : List (String × Collection)) (q : Query) :
    Except String (List Row) :=
  match mapLookup db q.From with
  | none => .error "collection not found"
  | some coll =>
    let docs := coll.Storage.List
    let passing :=
      docs.filter (fun doc =>
        match q.Where with
        | none => true
        | some cond => QueryExecutor.evalCondition doc cond)
    let results := passing.map (projectDoc q.Select)
    .ok (applyLimit q.Limit (applyOffset q.Offset results))

end JsonDB.query

namespace JsonDB.query

open JsonDB

/-- Character class `\s` of Go regexp, and the white space recognized by
`strings.TrimSpace` on the ASCII inputs of this development. -/
def isWsChar (c : Char) : Bool :=
  c == ' ' || c == '\t' || c == '\n' || c == Char.ofNat 12 || c == '\r'

/-- Character class `\d` of Go regexp. -/
def isDigitChar (c : Char) : Bool :=
  48 ≤ c.toNat && c.toNat ≤ 57

/-- `strings.ToUpper` (ASCII). -/
def goToUpper (s : String) : String := ⟨s.toList.map Char.toUpper⟩

/-- `strings.ToLower` (ASCII). -/
def goToLower (s : String) : String := ⟨s.toList.map Char.toLower⟩

/-- Whether the first list starts with the second. -/
def startsWithL : List Char → List Char → Bool
  | _, [] => true
  | [], _ :: _ => false
  | c :: cs, p :: ps => c == p && startsWithL cs ps

/-- Index of the leftmost occurrence of `sub` in the list. -/
def findSubIdx (sub : List Char) : List Char → Option Nat
  | [] => if sub.isEmpty then some 0 else none
  | c :: rest =>
    if startsWithL (c :: rest) sub then some 0
    else (findSubIdx sub rest).map (· + 1)

/-- `strings.Contains`. -/
def goContains (s sub : String) : Bool := (findSubIdx sub.toList s.toList).isSome

/-- `strings.HasPrefix`. -/
def goStartsWith (s p : String) : Bool := startsWithL s.toList p.toList

/-- `strings.HasSuffix`. -/
def goEndsWith (s p : String) : Bool :=
  startsWithL s.toList.reverse p.toList.reverse

/-- `strings.TrimSpace`. -/
def goTrimSpace (s : String) : String :=
  ⟨((s.toList.dropWhile isWsChar).reverse.dropWhile isWsChar).reverse⟩

/-- Splitting step of `strings.Split` around each non-overlapping leftmost
occurrence of the (non-empty) separator; the fuel is at least the string
length, which suffices. -/
def goSplitAux (sep : List Char) : Nat → List Char → List (List Char)
  | 0, s => [s]
  | fuel + 1, s =>
    match findSubIdx sep s with
    | none => [s]
    | some i => s.take i :: goSplitAux sep fuel (s.drop (i + sep.length))

/-- `strings.Split`. -/
def goSplit (s sep : String) : List String :=
  (goSplitAux sep.toList (s.length + 1) s.toList).map (fun l => ⟨l⟩)

/-- `strings.SplitN(s, sep, 2)`: split around the first occurrence only. -/
def goSplitN2 (s sep : String) : List String :=
  match findSubIdx sep.toList s.toList with
  | none => [s]
  | some i => [⟨s.toList.take i⟩, ⟨s.toList.drop (i + sep.toList.length)⟩]

/-- Digit run to a number; `none` when a non-digit appears. -/
def digitsToNatAux (acc : Nat) : List Char → Option Nat
  | [] => some acc
  | c :: rest =>
    if isDigitChar c then digitsToNatAux (acc * 10 + (c.toNat - 48)) rest
    else none

/-- `strconv.Atoi`: optional sign, all digits, 64-bit range check. -/
def goAtoi (s : String) : Except String Int :=
  match s.toList with
  | [] => .error "invalid syntax"
  | '+' :: ds =>
    match ds, digitsToNatAux 0 ds with
    | _ :: _, some v =>
      if v ≤ 9223372036854775807 then .ok (v : Int)
      else .error "value out of range"
    | _, _ => .error "invalid syntax"
  | '-' :: ds =>
    match ds, digitsToNatAux 0 ds with
    | _ :: _, some v =>
      if v ≤ 9223372036854775808 then .ok (-(v : Int))
      else .error "value out of range"
    | _, _ => .error "invalid syntax"
  | ds =>
    match digitsToNatAux 0 ds with
    | some v =>
      if v ≤ 9223372036854775807 then .ok (v : Int)
      else .error "value out of range"
    | none => .error "invalid syntax"

/-- `strconv.ParseFloat`, restricted to the literal shapes the query
grammar produces (optionally signed decimal digit strings with an
optional decimal point); such values are exact in the rational model. -/
def goParseFloat (s : String) : Except String ℚ :=
  let signed : Int × List Char :=
    match s.toList with
    | '+' :: r => (1, r)
    | '-' :: r => (-1, r)
    | r => (1, r)
  match findSubIdx ['.'] signed.2 with
  | none =>
    match signed.2, digitsToNatAux 0 signed.2 with
    | _ :: _, some v => .ok (Rat.divInt (signed.1 * v) 1)
    | _, _ => .error "invalid syntax"
  | some i =>
    let intPart := signed.2.take i
    let fracPart := signed.2.drop (i + 1)
    match intPart ++ fracPart, digitsToNatAux 0 intPart, digitsToNatAux 0 fracPart with
    | _ :: _, some iv, some fv =>
      .ok (Rat.divInt (signed.1 * (iv * 10 ^ fracPart.length + fv))
            ((10 : Int) ^ fracPart.length))
    | _, _, _ => .error "invalid syntax"

/-- Leaf parsing for one operator: split around its first occurrence, trim
both sides, and classify the right-hand literal (quoted string, boolean,
float when a dot is present, otherwise integer). -/
def parseWithOp (condStr op : String) : Except String Condition :=
  match goSplitN2 condStr op with
  | [l, r] =>
    let left := goTrimSpace l
    let right := goTrimSpace r
    if goStartsWith right "'" && goEndsWith right "'" then
      .ok (.mk (some left) op (.vStr ⟨(right.toList.drop 1).dropLast⟩) "" [])
    else if goToLower right == "true" || goToLower right == "false" then
      .ok (.mk (some left) op (.vBool (goToLower right == "true")) "" [])
    else if goContains right "." then
      match goParseFloat right with
      | .error e => .error e
      | .ok f => .ok (.mk (some left) op (.vFloat f) "" [])
    else
      match goAtoi right with
      | .error e => .error e
      | .ok n => .ok (.mk (some left) op (.vInt n) "" [])
  | _ => .error "invalid condition"

/-- The leaf branch of `parseCondition`: scan the six operators in the
order `>=, <=, !=, >, <, =` and parse around the first one contained in
the string. -/
def parseSimpleCondition (condStr : String) : Except String Condition :=
  if goContains condStr ">=" then parseWithOp condStr ">="
  else if goContains condStr "<=" then parseWithOp condStr "<="
  else if goContains condStr "!=" then parseWithOp condStr "!="
  else if goContains condStr ">" then parseWithOp condStr ">"
  else if goContains condStr "<" then parseWithOp condStr "<"
  else if goContains condStr "=" then parseWithOp condStr "="
  else .error "invalid condition"

/-- The Go loop over the split parts: parse each part in order, stopping
at the first error; `none` propagates fuel exhaustion. -/
def parseParts (f : String → Option (Except String Condition)) :
    List String → Option (Except String (List Condition))
  | [] => some (.ok [])
  | s :: rest =>
    match f s with
    | none => none
    | some (.error e) => some (.error e)
    | some (.ok c) =>
      match parseParts f rest with
      | none => none
      | some (.error e) => some (.error e)
      | some (.ok cs) => some (.ok (c :: cs))

/-- `QueryParser.parseCondition`.  The containment test upper-cases the
condition text, but the splits use the literal separators " AND " and
" OR ", exactly as in the source.  Fuel models Go's unbounded recursion:
`none` means the recursion did not finish within the given fuel, and a
run that is `none` for every fuel corresponds to non-termination of the
Go code. -/
def parseCondition (fuel : Nat) : String → Option (Except String Condition) :=
  Nat.rec (motive := fun _ => String → Option (Except String Condition))
    (fun _ => none)
    (fun _ ih condStr =>
      if goContains (goToUpper condStr) " AND " then
        match parseParts ih (goSplit condStr " AND ") with
        | none => none
        | some (.error e) => some (.error e)
        | some (.ok cs) => some (.ok (.mk none "" .vNull "AND" cs))
      else if goContains (goToUpper condStr) " OR " then
        match parseParts ih (goSplit condStr " OR ") with
        | none => none
        | some (.error e) => some (.error e)
        | some (.ok cs) => some (.ok (.mk none "" .vNull "OR" cs))
      else some (parseSimpleCondition condStr))
    fuel

/-! A matcher for the five tokenizer regular expressions of
`NewQueryParser`.  Only the constructs those patterns use are modelled:
case-insensitive literals (the patterns carry the `(?i)` flag), greedy
`\s+`, the captured `(\d+)`, the captured lazy `(.*?)`, alternation,
end-of-text, and concatenation.  The search is leftmost with Go's
Perl-style backtracking priority: greedy pieces try the longest
extension first, lazy pieces the shortest, alternatives left to right. -/

/-- Syntax of the needed regular-expression fragment. -/
inductive RE where
  | ciLit (t : List Char)
  | wsPlus
  | digPlusGrp
  | lazyAnyGrp
  | seq (a b : RE)
  | alt (a b : RE)
  | eos

/-- The value of the capture group: the half-open index range it matched,
when it participated in the match. -/
def Cap : Type := Option (Nat × Nat)

/-- Case-insensitive prefix test. -/
def ciStartsWith : List Char → List Char → Bool
  | _, [] => true
  | [], _ :: _ => false
  | c :: cs, p :: ps => (c.toLower == p.toLower) && ciStartsWith cs ps

/-- Length of the run of white-space characters at a position. -/
def wsRun (s : List Char) (pos : Nat) : Nat :=
  ((s.drop pos).takeWhile isWsChar).length

/-- Length of the run of digits at a position. -/
def digRun (s : List Char) (pos : Nat) : Nat :=
  ((s.drop pos).takeWhile isDigitChar).length

/-- Length of the run of characters matched by `.` (anything but a
newline) at a position. -/
def dotRun (s : List Char) (pos : Nat) : Nat :=
  ((s.drop pos).takeWhile (fun c => c != '\n')).length

/-- Greedy `+`: try the continuation at `pos + j` for `j = m, m-1, …, 1`. -/
def tryGreedy {α : Type} (k : Nat → Option α) (pos : Nat) : Nat → Option α
  | 0 => none
  | j + 1 =>
    match k (pos + j + 1) with
    | some r => some r
    | none => tryGreedy k pos j

/-- Lazy `*?`: try the continuation at `pos + j` for `j = j0, j0+1, …`,
with `rem` more extensions available. -/
def tryLazy {α : Type} (k : Nat → Option α) (pos j : Nat) : Nat → Option α
  | 0 => k (pos + j)
  | rem + 1 =>
    match k (pos + j) with
    | some r => some r
    | none => tryLazy k pos (j + 1) rem

/-- Backtracking matcher in continuation style; `some cap` is a successful
match of the whole expression (with the group's range), `none` a failure
forcing the caller to backtrack. -/
def reMatch (s : List Char) : RE → Nat → Cap → (Nat → Cap → Option Cap) →
    Option Cap
  | .ciLit t, pos, cap, k =>
    if ciStartsWith (s.drop pos) t then k (pos + t.length) cap else none
  | .wsPlus, pos, cap, k => tryGreedy (fun p => k p cap) pos (wsRun s pos)
  | .digPlusGrp, pos, _, k =>
    tryGreedy (fun p => k p (some (pos, p))) pos (digRun s pos)
  | .lazyAnyGrp, pos, _, k =>
    tryLazy (fun p => k p (some (pos, p))) pos 0 (dotRun s pos)
  | .seq a b, pos, cap, k => reMatch s a pos cap (fun p c => reMatch s b p c k)
  | .alt a b, pos, cap, k =>
    match reMatch s a pos cap k with
    | some r => some r
    | none => reMatch s b pos cap k
  | .eos, pos, cap, k => if pos == s.length then k pos cap else none

/-- Leftmost search: try a full match at `pos`, then at `pos + 1`, … . -/
def reFindAux (s : List Char) (re : RE) : Nat → Nat → Option Cap
  | pos, rem =>
    match reMatch s re pos none (fun _ c => some c) with
    | some c => some c
    | none =>
      match rem with
      | 0 => none
      | rem + 1 => reFindAux s re (pos + 1) rem

/-- `FindStringSubmatch` reduced to the first capture group: `none` when
the pattern does not occur, otherwise the text of group 1. -/
def reFindCapture (re : RE) (str : String) : Option String :=
  match reFindAux str.toList re 0 str.toList.length with
  | none => none
  | some none => some ""
  | some (some (a, b)) => some ⟨(str.toList.take b).drop a⟩

/-- `(?i)SELECT\s+(.*?)\s+FROM`. -/
def selectRegex : RE :=
  .seq (.ciLit "SELECT".toList)
    (.seq .wsPlus (.seq .lazyAnyGrp (.seq .wsPlus (.ciLit "FROM".toList))))

/-- `(?i)FROM\s+(.*?)(\s+WHERE|\s+LIMIT|\s+OFFSET|$)`. -/
def fromRegex : RE :=
  .seq (.ciLit "FROM".toList)
    (.seq .wsPlus
      (.seq .lazyAnyGrp
        (.alt (.seq .wsPlus (.ciLit "WHERE".toList))
          (.alt (.seq .wsPlus (.ciLit "LIMIT".toList))
            (.alt (.seq .wsPlus (.ciLit "OFFSET".toList)) .eos)))))

/-- `(?i)WHERE\s+(.*?)(\s+LIMIT|\s+OFFSET|$)`. -/
def whereRegex : RE :=
  .seq (.ciLit "WHERE".toList)
    (.seq .wsPlus
      (.seq .lazyAnyGrp
        (.alt (.seq .wsPlus (.ciLit "LIMIT".toList))
          (.alt (.seq .wsPlus (.ciLit "OFFSET".toList)) .eos))))

/-- `(?i)LIMIT\s+(\d+)`. -/
def limitRegex : RE := .seq (.ciLit "LIMIT".toList) (.seq .wsPlus .digPlusGrp)

/-- `(?i)OFFSET\s+(\d+)`. -/
def offsetRegex : RE := .seq (.ciLit "OFFSET".toList) (.seq .wsPlus .digPlusGrp)

/-- `QueryParser.Parse`: defaults `Limit = -1`, `Offset = 0`; SELECT and
FROM must match or parsing fails; a missing WHERE/LIMIT/OFFSET clause
keeps its default; a parse error of the condition or of a matched
LIMIT/OFFSET number is surfaced.  The fuel feeds `parseCondition`;
`none` models a non-terminating parse of the WHERE condition. -/
def Parse (fuel : Nat) (queryStr : String) : Option (Except String Query) :=
  match reFindCapture selectRegex queryStr with
  | none => some (.error "invalid SELECT")
  | some selCap =>
    let fields := (goSplit selCap ",").map goTrimSpace
    match reFindCapture fromRegex queryStr with
    | none => some (.error "invalid FROM")
    | some fromCap =>
      let fromName := goTrimSpace fromCap
      let whereStep : Option (Except String (Option Condition)) :=
        match reFindCapture whereRegex queryStr with
        | none => some (.ok none)
        | some w =>
          match parseCondition fuel w with
          | none => none
          | some (.error e) => some (.error e)
          | some (.ok c) => some (.ok (some c))
      match whereStep with
      | none => none
      | some (.error e) => some (.error e)
      | some (.ok wh) =>
        let limitStep : Except String Int :=
          match reFindCapture limitRegex queryStr with
          | none => .ok (-1)
          | some l => goAtoi l
        match limitStep with
        | .error e => some (.error e)
        | .ok lim =>
          let offsetStep : Except String Int :=
            match reFindCapture offsetRegex queryStr with
            | none => .ok 0
            | some o => goAtoi o
          match offsetStep with
          | .error e => some (.error e)
          | .ok off =>
            some (.ok ⟨fields, fromName, wh, lim, off⟩)

end JsonDB.query

namespace JsonDB

/-- Whether the two values are of comparable type under the typed
comparison rules (both strings, both numeric, or both booleans); every
other pairing is incomparable and falls under the compare-equal fallback
policy. -/
def typesComparable (a b : Value) : Bool :=
  match a, b with
  | .vStr _, .vStr _ => true
  | .vInt _, .vInt _ => true
  | .vInt _, .vFloat _ => true
  | .vFloat _, .vInt _ => true
  | .vFloat _, .vFloat _ => true
  | .vBool _, .vBool _ => true
  | _, _ => false

/-! Concrete scenarios used by individual claims. -/

/-- A B-tree index of order 1 after adding two documents with distinct
values of the indexed field. -/
def c1Index : index.BTreeIndex :=
  ((index.NewBTreeIndex "age" 1).Add ⟨"d1", [("age", .vInt 1)]⟩).Add
    ⟨"d2", [("age", .vInt 2)]⟩

/-- A collection with one B-tree index on `age` and empty storage. -/
def c4Collection0 : api.Collection :=
  ⟨"users", ⟨[]⟩, [("age", index.NewBTreeIndex "age" 5)]⟩

/-- Document `d1` with `age = 30`. -/
def c4DocA : storage.Document := ⟨"d1", [("age", .vInt 30)]⟩

/-- Document `d1` with `age = 40`. -/
def c4DocB : storage.Document := ⟨"d1", [("age", .vInt 40)]⟩

/-- Insert `d1` with `age = 30` twice. -/
def c4TwiceSame : Except String api.Collection :=
  (c4Collection0.InsertDocument c4DocA).bind (fun c => c.InsertDocument c4DocA)

/-- Insert `d1` with `age = 30`, then insert `d1` with `age = 40`. -/
def c4TwiceDifferent : Except String api.Collection :=
  (c4Collection0.InsertDocument c4DocA).bind (fun c => c.InsertDocument c4DocB)

/-- Insert `d1` with `age = 30`, then update `d1` to `age = 40`. -/
def c4InsertThenUpdate : Except String api.Collection :=
  (c4Collection0.InsertDocument c4DocA).bind (fun c => c.UpdateDocument c4DocB)

/-- Project the collection out of an insertion result (the scenarios never
take the error branch). -/
def collOf (r : Except String api.Collection) : api.Collection :=
  match r with
  | .ok c => c
  | .error _ => ⟨"", ⟨[]⟩, []⟩

/-- The `age` index of a collection (the scenarios always have one). -/
def ageIdxOf (c : api.Collection) : index.BTreeIndex :=
  match mapLookup c.Indexes "age" with
  | some i => i
  | none => index.NewBTreeIndex "" 0

/-- Five documents `d1 … d5` with `n = 1 … 5`, in enumeration order. -/
def c7Db : List (String × query.Collection) :=
  [("c", ⟨⟨[("d1", ⟨"d1", [("n", .vInt 1)]⟩), ("d2", ⟨"d2", [("n", .vInt 2)]⟩),
            ("d3", ⟨"d3", [("n", .vInt 3)]⟩), ("d4", ⟨"d4", [("n", .vInt 4)]⟩),
            ("d5", ⟨"d5", [("n", .vInt 5)]⟩)]⟩⟩)]

/-- `SELECT * FROM c LIMIT 2 OFFSET 1`, structured. -/
def c7Query : query.Query := ⟨["*"], "c", none, 2, 1⟩

/-- Seed document `u1` of the projection property. -/
def c8U1 : storage.Document :=
  ⟨"u1", [("name", .vStr "Ivan"), ("email", .vStr "i@x"), ("active", .vBool true)]⟩

/-- Seed document `u2` of the projection property. -/
def c8U2 : storage.Document :=
  ⟨"u2", [("name", .vStr "Mara"), ("active", .vBool false)]⟩

/-- The `users` collection seeded with `u1` and `u2`. -/
def c8Db : List (String × query.Collection) :=
  [("users", ⟨⟨[("u1", c8U1), ("u2", c8U2)]⟩⟩)]

/-- `SELECT name, email FROM users WHERE active = true`, structured. -/
def c8Query : query.Query :=
  ⟨["name", "email"], "users", some (.mk (some "active") "=" (.vBool true) "" []),
    -1, 0⟩

end JsonDB


namespace JsonDB

/-! Shared lemmas about the comparison helpers and the association-list
model of Go maps. -/

theorem fblt_iff (a b : ℚ) : fblt a b = true ↔ a < b := Iff.rfl

theorem fblt_false_iff (a b : ℚ) : fblt a b = false ↔ ¬ a < b := by
  constructor
  · intro h hlt
    rw [← fblt_iff] at hlt
    rw [h] at hlt
    exact Bool.noConfusion hlt
  · intro h
    cases hb : fblt a b
    · rfl
    · exact absurd ((fblt_iff a b).mp hb) h

theorem cmpQ_eq_zero_iff (a b : ℚ) : cmpQ a b = 0 ↔ a = b := by
  unfold cmpQ
  cases h1 : fblt a b
  · cases h2 : fblt b a
    · simp only [Bool.false_eq_true, if_false]
      constructor
      · intro _
        exact le_antisymm (not_lt.mp ((fblt_false_iff b a).mp h2))
          (not_lt.mp ((fblt_false_iff a b).mp h1))
      · intro _; trivial
    · simp only [Bool.false_eq_true, if_false, if_true]
      constructor
      · intro h; exact absurd h (by norm_num)
      · intro h; exact absurd ((fblt_iff b a).mp h2) (by rw [h]; exact lt_irrefl b)
  · simp only [if_true]
    constructor
    · intro h; exact absurd h (by norm_num)
    · intro h; exact absurd ((fblt_iff a b).mp h1) (by rw [h]; exact lt_irrefl b)

theorem cmpQ_neg_iff (a b : ℚ) : cmpQ a b < 0 ↔ a < b := by
  unfold cmpQ
  cases h1 : fblt a b
  · cases h2 : fblt b a
    · simp only [Bool.false_eq_true, if_false]
      constructor
      · intro h; exact absurd h (by norm_num)
      · intro h; exact absurd h ((fblt_false_iff a b).mp h1)
    · simp only [Bool.false_eq_true, if_false, if_true]
      constructor
      · intro h; exact absurd h (by norm_num)
      · intro h; exact absurd h ((fblt_false_iff a b).mp h1)
  · simp only [if_true]
    constructor
    · intro _; exact (fblt_iff a b).mp h1
    · intro _; norm_num

theorem cmpZ_eq_zero_iff (a b : Int) : cmpZ a b = 0 ↔ a = b := by
  unfold cmpZ
  split_ifs with h1 h2
  · constructor
    · intro h; exact absurd h (by norm_num)
    · intro h; omega
  · constructor
    · intro h; exact absurd h (by norm_num)
    · intro h; omega
  · constructor
    · intro _; omega
    · intro _; rfl

theorem cmpZ_neg_iff (a b : Int) : cmpZ a b < 0 ↔ a < b := by
  unfold cmpZ
  split_ifs with h1 h2
  · constructor
    · intro _; exact h1
    · intro _; norm_num
  · constructor
    · intro h; exact absurd h (by norm_num)
    · intro h; exact absurd h h1
  · constructor
    · intro h; exact absurd h (by norm_num)
    · intro h; exact absurd h h1

theorem intToQ_cast (n : Int) : intToQ n = (n : ℚ) := Rat.divInt_one n

theorem mapLookup_mapErase_self {α : Type} (l : List (String × α)) (k : String) :
    mapLookup (mapErase l k) k = none := by
  induction l with
  | nil => rfl
  | cons p rest ih =>
    obtain ⟨k0, v0⟩ := p
    cases h : (k0 == k)
    · simp only [mapErase, h, Bool.false_eq_true, if_false, mapLookup, ih]
    · simp only [mapErase, h, if_true, ih]

theorem mapLookup_mapUpsert {α : Type} (l : List (String × α)) (k k' : String)
    (v : α) :
    mapLookup (mapUpsert l k v) k' =
      if (k == k') = true then some v else mapLookup l k' := by
  induction l with
  | nil => rfl
  | cons p rest ih =>
    obtain ⟨k0, v0⟩ := p
    cases h : (k0 == k)
    · cases h' : (k0 == k')
      · simp only [mapUpsert, h, Bool.false_eq_true, if_false, mapLookup, h', ih]
      · have hk0 : k0 = k' := eq_of_beq h'
        subst hk0
        have hkk : (k == k0) = false := by
          cases hk : (k == k0)
          · rfl
          · exfalso
            rw [eq_of_beq hk] at h
            simp at h
        have hkk' : (k0 == k) = false := h
        simp only [mapUpsert, h, Bool.false_eq_true, if_false, mapLookup, h',
          if_true, ih, hkk]
    · have hk : k0 = k := eq_of_beq h
      subst hk
      cases h' : (k0 == k')
      · simp only [mapUpsert, h, if_true, mapLookup, h', Bool.false_eq_true,
          if_false]
      · simp only [mapUpsert, h, if_true, mapLookup, h']

theorem mapLookup_none_iff_all {α : Type} (l : List (String × α)) (k : String) :
    mapLookup l k = none ↔ l.all (fun p => !(p.1 == k)) = true := by
  induction l with
  | nil => simp [mapLookup]
  | cons p rest ih =>
    obtain ⟨k0, v0⟩ := p
    cases h : (k0 == k)
    · simp [mapLookup, h, ih]
    · simp [mapLookup, h]

theorem mapLookup_foldl_upsert_absent {α : Type} (content : List (String × α))
    (acc : List (String × α)) (k : String) :
    content.all (fun p => !(p.1 == k)) = true →
    mapLookup (content.foldl (fun acc p => mapUpsert acc p.1 p.2) acc) k =
      mapLookup acc k := by
  induction content generalizing acc with
  | nil => intro _; rfl
  | cons p rest ih =>
    intro h
    obtain ⟨k0, v0⟩ := p
    simp only [List.all_cons, Bool.and_eq_true] at h
    obtain ⟨h1, h2⟩ := h
    have h1' : (k0 == k) = false := by
      cases hk : (k0 == k)
      · rfl
      · rw [hk] at h1; exact absurd h1 (by simp)
    simp only [List.foldl_cons]
    rw [ih _ h2, mapLookup_mapUpsert, if_neg (by rw [h1']; simp)]

theorem mapLookup_foldl_upsert_found {α : Type} (content : List (String × α))
    (acc : List (String × α)) (k : String) (v : α) :
    mapNodupKeys content = true → mapLookup content k = some v →
    mapLookup (content.foldl (fun acc p => mapUpsert acc p.1 p.2) acc) k =
      some v := by
  induction content generalizing acc with
  | nil => intro _ hmem; exact absurd hmem (by simp [mapLookup])
  | cons p rest ih =>
    intro hnd hmem
    obtain ⟨k0, v0⟩ := p
    simp only [mapNodupKeys, Bool.and_eq_true] at hnd
    obtain ⟨hna, hnd'⟩ := hnd
    cases h : (k0 == k)
    · have hmem' : mapLookup rest k = some v := by
        simpa [mapLookup, h] using hmem
      simp only [List.foldl_cons]
      exact ih _ hnd' hmem'
    · have hk : k0 = k := eq_of_beq h
      subst hk
      have hv : v0 = v := by
        simpa [mapLookup] using hmem
      subst hv
      simp only [List.foldl_cons]
      rw [mapLookup_foldl_upsert_absent _ _ _ hna, mapLookup_mapUpsert]
      simp

end JsonDB

namespace JsonDB

open JsonDB.storage JsonDB.index JsonDB.query JsonDB.api

/-- C1: the claim asserts that after every Add no node holds more than the
order parameter many keys, the excess being resolved by a split.  The
source's `splitIfNeeded` is a no-op placeholder, so after adding two
distinct keys to an index of order 1 the root — still the only node of
the tree, a leaf with no children — holds 2 keys, exceeding the order
parameter. -/
theorem c1_add_leaves_root_exceeding_order :
    c1Index.Root.keys.length = 2 ∧ c1Index.Order = 1 ∧
    ¬ ((c1Index.Root.keys.length : Int) ≤ c1Index.Order) ∧
    c1Index.Root.children = [] ∧ c1Index.Root.isLeaf = true :=
  ⟨rfl, rfl, by decide, rfl, rfl⟩

/-- C2 (counterexample): the executor's `compare` on integer 3 versus
float 3.5 returns 0 — the two are treated as equal, while the
`float64`-coercion comparison (as implemented in the index) orders
3 below 3.5 — and consequently a document whose field holds integer 3
does satisfy the condition `field = 3.5`, contrary to the claim. -/
theorem c2_counterexample_int_vs_float :
    QueryExecutor.compare (.vInt 3) (.vFloat (Rat.divInt 7 2)) = 0
  ∧ index.compare (.vInt 3) (.vFloat (Rat.divInt 7 2)) = -1
  ∧ QueryExecutor.evalCondition ⟨"d1", [("f", .vInt 3)]⟩
      (.mk (some "f") "=" (.vFloat (Rat.divInt 7 2)) "" []) = true :=
  ⟨rfl, rfl, rfl⟩

/-- C2 (amended): the B-tree index comparison coerces the integer to a
float in both mixed orders; the query executor does so only when the
float is the left operand — with an integer on the left the float right
operand is truncated toward zero to an integer.  Hence a document whose
field holds integer 3 satisfies `field = 3.5` in query evaluation. -/
theorem c2_mixed_numeric_comparison (i : Int) (f : ℚ) :
    (index.compare (.vInt i) (.vFloat f) = 0 ↔ (i : ℚ) = f)
  ∧ (index.compare (.vFloat f) (.vInt i) = 0 ↔ f = (i : ℚ))
  ∧ (QueryExecutor.compare (.vFloat f) (.vInt i) = 0 ↔ f = (i : ℚ))
  ∧ (QueryExecutor.compare (.vFloat f) (.vInt i) < 0 ↔ f < (i : ℚ))
  ∧ (QueryExecutor.compare (.vInt i) (.vFloat f) = 0 ↔ i = goFloatToInt f)
  ∧ (QueryExecutor.compare (.vInt i) (.vFloat f) < 0 ↔ i < goFloatToInt f)
  ∧ QueryExecutor.evalCondition ⟨"d1", [("f", .vInt 3)]⟩
      (.mk (some "f") "=" (.vFloat (Rat.divInt 7 2)) "" []) = true := by
  refine ⟨?_, ?_, ?_, ?_, ?_, ?_, rfl⟩
  · show cmpQ (intToQ i) f = 0 ↔ (i : ℚ) = f
    rw [intToQ_cast]
    exact cmpQ_eq_zero_iff _ _
  · show cmpQ f (intToQ i) = 0 ↔ f = (i : ℚ)
    rw [intToQ_cast]
    exact cmpQ_eq_zero_iff _ _
  · show cmpQ f (intToQ i) = 0 ↔ f = (i : ℚ)
    rw [intToQ_cast]
    exact cmpQ_eq_zero_iff _ _
  · show cmpQ f (intToQ i) < 0 ↔ f < (i : ℚ)
    rw [intToQ_cast]
    exact cmpQ_neg_iff _ _
  · exact cmpZ_eq_zero_iff _ _
  · exact cmpZ_neg_iff _ _

/-- C3: the claim asserts termination for every input and that lowercase
connectives parse like uppercase ones.  `parseCondition` detects " AND "
case-insensitively but splits on the literal uppercase separator, so on
"age > 25 and active = true" the single split part equals the input and
the recursion never progresses: the run is `none` at every fuel, i.e. the
Go code does not terminate.  The uppercase spelling parses to the AND
node over the two leaves. -/
theorem c3_lowercase_and_diverges :
    (∀ fuel : Nat, parseCondition fuel "age > 25 and active = true" = none)
  ∧ parseCondition 2 "age > 25 AND active = true" =
      some (.ok (.mk none "" .vNull "AND"
        [.mk (some "age") ">" (.vInt 25) "" [],
         .mk (some "active") "=" (.vBool true) "" []])) := by
  constructor
  · intro n
    induction n with
    | zero => rfl
    | succ n ih =>
      change (match (match parseCondition n "age > 25 and active = true" with
        | Option.none => Option.none
        | Option.some (Except.error e) => Option.some (Except.error e)
        | Option.some (Except.ok c) =>
            Option.some (Except.ok [c])) with
        | Option.none => (Option.none : Option (Except String Condition))
        | Option.some (Except.error e) => Option.some (Except.error e)
        | Option.some (Except.ok cs) =>
            Option.some (Except.ok (Condition.mk none "" Value.vNull "AND" cs)))
        = none
      rw [ih]
  · rfl

/-- C4 (counterexample): inserting `d1` with `age = 30` and then inserting
`d1` with `age = 40` leaves the index entry `30 → [d1]` in place — an
entry remains under the previous value, contrary to the claim. -/
theorem c4_counterexample_stale_entry :
    c4TwiceDifferent.isOk = true
  ∧ (ageIdxOf (collOf c4TwiceDifferent)).Search "age" (.vInt 30) = .ok ["d1"] :=
  ⟨rfl, rfl⟩

/-- C4 (amended): re-inserting the same identifier with the same indexed
value leaves exactly one index entry, but `InsertDocument` only adds to
indexes — with a different indexed value the entry under the previous
value remains alongside the new one.  Relocation is performed by
`UpdateDocument`, which removes the old entry before re-adding. -/
theorem c4_insert_twice_index_entries :
    c4TwiceSame.isOk = true
  ∧ (ageIdxOf (collOf c4TwiceSame)).Search "age" (.vInt 30) = .ok ["d1"]
  ∧ (ageIdxOf (collOf c4TwiceSame)).DocIDs = [("d1", .vInt 30)]
  ∧ (ageIdxOf (collOf c4TwiceSame)).Root.keys.length = 1
  ∧ c4TwiceDifferent.isOk = true
  ∧ (ageIdxOf (collOf c4TwiceDifferent)).Search "age" (.vInt 30) = .ok ["d1"]
  ∧ (ageIdxOf (collOf c4TwiceDifferent)).Search "age" (.vInt 40) = .ok ["d1"]
  ∧ c4InsertThenUpdate.isOk = true
  ∧ (ageIdxOf (collOf c4InsertThenUpdate)).Search "age" (.vInt 30) = .ok []
  ∧ (ageIdxOf (collOf c4InsertThenUpdate)).Search "age" (.vInt 40) = .ok ["d1"] :=
  ⟨rfl, rfl, rfl, rfl, rfl, rfl, rfl, rfl, rfl, rfl⟩

/-- C5 (counterexample): deleting an absent identifier from the in-memory
backend succeeds (Go's map delete is a no-op on a missing key) — it does
not fail with NotFound as the claim states for both variants. -/
theorem c5_counterexample_memory_delete_absent :
    MemoryStorage.Delete ⟨[]⟩ "missing" = .ok ⟨[]⟩ := rfl

/-- C5 (amended): the in-memory `Delete` always succeeds and leaves the
identifier absent (deleting a present identifier removes it, deleting an
absent one is a silent no-op); the file-backed `Delete` fails when the
identifier is absent and succeeds, removing the document, when it is
present. -/
theorem c5_delete_contract (ms : MemoryStorage) (fs : FileStorage)
    (id : String) :
    (∃ ms', ms.Delete id = .ok ms' ∧ mapLookup ms'.Docs id = none)
  ∧ (mapLookup fs.Files id = none → ∃ e, fs.Delete id = .error e)
  ∧ (∀ d, mapLookup fs.Files id = some d →
      ∃ fs', fs.Delete id = .ok fs' ∧ mapLookup fs'.Files id = none) := by
  refine ⟨?_, ?_, ?_⟩
  · exact ⟨⟨mapErase ms.Docs id⟩, rfl, mapLookup_mapErase_self _ _⟩
  · intro h
    refine ⟨"remove: no such file", ?_⟩
    unfold FileStorage.Delete
    rw [h]
  · intro d h
    refine ⟨{ fs with
                Files := mapErase fs.Files id
                Cache := if fs.UseCache then mapErase fs.Cache id else fs.Cache },
            ?_, mapLookup_mapErase_self _ _⟩
    unfold FileStorage.Delete
    rw [h]

/-- C5 (witness): the amended contract applied to concrete stores. -/
theorem c5_delete_contract_witness :
    ∃ e, FileStorage.Delete ⟨"dir", true, [], []⟩ "x" = .error e :=
  (c5_delete_contract ⟨[]⟩ ⟨"dir", true, [], []⟩ "x").2.1 rfl

/-- C6: on every pair of values of incomparable type both the executor's
and the index's comparison return 0 (not an error), so in the executor
the operators `=`, `>=`, `<=` hold and `!=`, `>`, `<` fail on such
pairs. -/
theorem c6_incomparable_types_compare_equal (a b : Value)
    (h : typesComparable a b = false) :
    QueryExecutor.compare a b = 0
  ∧ index.compare a b = 0
  ∧ QueryExecutor.compareValues a "=" b = true
  ∧ QueryExecutor.compareValues a ">=" b = true
  ∧ QueryExecutor.compareValues a "<=" b = true
  ∧ QueryExecutor.compareValues a "!=" b = false
  ∧ QueryExecutor.compareValues a ">" b = false
  ∧ QueryExecutor.compareValues a "<" b = false := by
  cases a <;> cases b <;>
    first
      | exact Bool.noConfusion h
      | exact ⟨rfl, rfl, rfl, rfl, rfl, rfl, rfl, rfl⟩

/-- C6 (witness): a string against a number. -/
theorem c6_incomparable_types_witness :
    QueryExecutor.compareValues (.vStr "a") "=" (.vInt 0) = true :=
  (c6_incomparable_types_compare_equal (.vStr "a") (.vInt 0) rfl).2.2.1

/-- C7: offset precedes limit on the filtered, projected rows — the first
`offset` rows are dropped unless `offset ≥ row count` (then nothing is
dropped), after which the rows are truncated to `limit` when
`0 ≤ limit < remaining count` and left alone for a negative limit; and
`LIMIT 2 OFFSET 1` over five matching rows returns rows 2 and 3 in
enumeration order. -/
theorem c7_offset_then_limit (rows : List Row) (lim off : Int) :
    (off ≥ (rows.length : Int) → applyOffset off rows = rows)
  ∧ (0 ≤ off → off < (rows.length : Int) →
      applyOffset off rows = rows.drop off.toNat)
  ∧ (0 ≤ lim → lim < ((applyOffset off rows).length : Int) →
      applyLimit lim (applyOffset off rows) =
        (applyOffset off rows).take lim.toNat)
  ∧ (lim < 0 →
      applyLimit lim (applyOffset off rows) = applyOffset off rows)
  ∧ QueryExecutor.Execute c7Db c7Query =
      .ok [[("n", .vInt 2), ("_id", .vStr "d2")],
           [("n", .vInt 3), ("_id", .vStr "d3")]] := by
  refine ⟨?_, ?_, ?_, ?_, rfl⟩
  · intro h
    unfold applyOffset
    rw [if_neg (by omega)]
  · intro h0 hlen
    unfold applyOffset
    by_cases hz : 0 < off
    · rw [if_pos ⟨hz, hlen⟩]
    · have hoff : off = 0 := by omega
      subst hoff
      rw [if_neg (by omega)]
      simp
  · intro h0 hlt
    unfold applyLimit
    rw [if_pos ⟨h0, hlt⟩]
  · intro h
    unfold applyLimit
    rw [if_neg (by omega)]

/-- C7 (witness): offset past the end of an empty row list drops
nothing. -/
theorem c7_offset_then_limit_witness :
    applyOffset 5 ([] : List Row) = [] :=
  (c7_offset_then_limit [] 0 5).1 (by decide)

/-- C8: wildcard projection of a document resolves `_id` to the
identifier and every other key exactly as the content does; an explicit
field list copies only named fields present in the document (document
`u2` has no `email`); and the seed query `SELECT name, email FROM users
WHERE active = true` returns exactly the row
`{name: Ivan, email: i@x}`. -/
theorem c8_projection :
    (∀ (doc : Document) (k : String), mapNodupKeys doc.Content = true →
      (k == "_id") = false →
      mapLookup (projectDoc ["*"] doc) k = mapLookup doc.Content k)
  ∧ (∀ doc : Document,
      mapLookup (projectDoc ["*"] doc) "_id" = some (.vStr doc.ID))
  ∧ projectDoc ["name", "email"] c8U2 = [("name", .vStr "Mara")]
  ∧ QueryExecutor.Execute c8Db c8Query =
      .ok [[("name", .vStr "Ivan"), ("email", .vStr "i@x")]] := by
  refine ⟨?_, ?_, rfl, rfl⟩
  · intro doc k hnd hk
    show mapLookup
        (mapUpsert (doc.Content.foldl (fun acc p => mapUpsert acc p.1 p.2) [])
          "_id" (.vStr doc.ID)) k = mapLookup doc.Content k
    rw [mapLookup_mapUpsert, if_neg ?hne]
    case hne =>
      intro hc
      rw [eq_of_beq hc] at hk
      simp at hk
    cases hc : mapLookup doc.Content k with
    | none =>
      rw [mapLookup_foldl_upsert_absent _ _ _
        ((mapLookup_none_iff_all _ _).mp hc)]
      rfl
    | some v =>
      exact mapLookup_foldl_upsert_found _ _ _ _ hnd hc
  · intro doc
    show mapLookup
        (mapUpsert (doc.Content.foldl (fun acc p => mapUpsert acc p.1 p.2) [])
          "_id" (.vStr doc.ID)) "_id" = some (.vStr doc.ID)
    rw [mapLookup_mapUpsert]
    simp

/-- C8 (witness): the wildcard characterization applied to `u1` and the
key `name`. -/
theorem c8_projection_witness :
    mapLookup (projectDoc ["*"] c8U1) "name" = mapLookup c8U1.Content "name" :=
  c8_projection.1 c8U1 "name" rfl rfl

/-- C9: a leaf condition on a field other than `_id` that is absent from
the document's content evaluates to false whatever the operator and the
literal — such documents are filtered out rather than raising an
error. -/
theorem c9_absent_field_filters_out (doc : Document) (f op : String)
    (rv : Value) (childOp : String) (hf : (f == "_id") = false)
    (hl : mapLookup doc.Content f = none) :
    QueryExecutor.evalCondition doc (.mk (some f) op rv childOp []) = false := by
  simp only [QueryExecutor.evalCondition, QueryExecutor.evalChildren,
    List.length_nil, gt_iff_lt, lt_irrefl, decide_False, Bool.false_and,
    Bool.false_eq_true, if_false, hf, query.getNestedValue, hl]

/-- C9 (witness): the condition `b != 1` does not match a document whose
content lacks the field `b`. -/
theorem c9_absent_field_witness :
    QueryExecutor.evalCondition ⟨"d", [("a", .vInt 1)]⟩
      (.mk (some "b") "!=" (.vInt 1) "" []) = false :=
  c9_absent_field_filters_out ⟨"d", [("a", .vInt 1)]⟩ "b" "!=" (.vInt 1) "" rfl rfl

/-- C10 (counterexample): `LIMIT 5x` is malformed in the claim's sense
(the token after LIMIT is not a digit sequence), yet the parsed query
carries limit 5 — the clause is not ignored and the default −1 is not
kept, because the tokenizer regex accepts the digit prefix. -/
theorem c10_counterexample_digit_prefix :
    Parse 1 "SELECT * FROM users LIMIT 5x" =
      some (.ok ⟨["*"], "users", none, 5, 0⟩) := rfl

/-- C10 (amended): when no digit follows the LIMIT/OFFSET keyword (after
white space) the clause is silently ignored and the defaults are kept
(limit −1 = unbounded, offset 0) with no parse error; a well-formed
clause is honored; and when the token after the keyword merely starts
with digits, the digit prefix becomes the value. -/
theorem c10_malformed_limit_offset_ignored :
    Parse 1 "SELECT * FROM users LIMIT -5" =
      some (.ok ⟨["*"], "users", none, -1, 0⟩)
  ∧ Parse 1 "SELECT * FROM users LIMIT x" =
      some (.ok ⟨["*"], "users", none, -1, 0⟩)
  ∧ Parse 1 "SELECT * FROM users OFFSET -3" =
      some (.ok ⟨["*"], "users", none, -1, 0⟩)
  ∧ Parse 1 "SELECT * FROM users LIMIT 10 OFFSET 20" =
      some (.ok ⟨["*"], "users", none, 10, 20⟩)
  ∧ Parse 1 "SELECT * FROM users LIMIT 5x" =
      some (.ok ⟨["*"], "users", none, 5, 0⟩) :=
  ⟨rfl, rfl, rfl, rfl, rfl⟩

end JsonDB
